import Mathlib

/-!
Shallow embedding of `src/cachemethod.py` (the `cachemethod` package).

The Python module implements a thread-safe LRU cache for methods
(`_lru_cachemthod_wrapper`) on top of a dict `cache`, a circular
doubly-linked list of nodes `[prev, next, key, result]` rooted at `root`,
counters `misses`/`hits`, a `full` flag, and two instance-identity
strategies (`_base_seed` and `_base_weakref`).

The embedding below mirrors the source statement by statement:

* the node heap is a list of `(id, node)` pairs; Python object references
  become ids, and each Python field assignment `x[_NEXT] = y` becomes one
  `heapModify` on the evolving heap;
* the dict `cache` is an association list keyed by the cache key; the
  value is `Option Nat` because Python can store either a node reference
  or the value `None` in it (the trailing `cache[key] = node` on the
  miss path stores the local variable `node`, which is `None` when the
  `if key in cache` branch was taken);
* Python exceptions become `Except` / `Option` results (`KeyError` from
  `del cache[oldkey]`, a hashing failure, or an exception raised by the
  wrapped function);
* `time.time()` readings are an explicit list of clock ticks, so the
  spin loop of `_make_seed` becomes a `find?` over that list, with
  `none` meaning the Python loop never terminates.

Sequential calls are modelled directly; the one place where concurrency
is semantically visible — the insertion section running while the key is
already cached, reachable only when two misses race between `get` and
`put` — is modelled by running `putSection` on a state that already
contains the key, which is exactly the program state such a race
produces.
-/

set_option autoImplicit false

/-- mirrors `_hash_args_kwargs(args, kwargs)`:
`hash(args) + sum(map(hash, kwargs.items()))`.  `hargs` stands for
`hash(args)` (the hash of the positional-argument tuple) and `kwitems`
for `kwargs.items()` in dict iteration order, hashed pointwise by
`hash`. -/
def hash_args_kwargs {α : Type} (hash : α → Int) (hargs : Int) (kwitems : List α) : Int :=
  hargs + (kwitems.map hash).sum

/-- mirrors `_make_cache_key_seed(seed, args, kwargs)`:
`seed + _hash_args_kwargs(args, kwargs)`. -/
def make_cache_key_seed {α : Type} (hash : α → Int) (seed : Int) (hargs : Int)
    (kwitems : List α) : Int :=
  seed + hash_args_kwargs hash hargs kwitems

/-- mirrors `_make_cache_key_weakref(__weak_self__, args, kwargs)`:
the pair `(__weak_self__, _hash_args_kwargs(args, kwargs))`.  A weak
reference is modelled by the identity of the instance it points to
(two Python weakrefs are equal exactly when they reference the same
live instance). -/
def make_cache_key_weakref {α : Type} (hash : α → Int) (ref : Nat) (hargs : Int)
    (kwitems : List α) : Nat × Int :=
  (ref, hash_args_kwargs hash hargs kwitems)

/-- mirrors `_make_seed(used_seeds)`: repeatedly read the clock
(`round(time.time() * 1000)`) until the reading is not in `used_seeds`.
`ticks` is the sequence of clock readings the loop would observe;
`none` means every available reading collides, i.e. the Python loop
spins without returning. -/
def make_seed (ticks : List Int) (used : List Int) : Option Int :=
  ticks.find? (fun t => !(used.contains t))

/-- mirrors `_marshall_seed(__self__, cache_lock, used_seeds_set)`.
`attr` is the instance's `__cache_seed__` attribute (`none` when the
attribute is absent).  Returns `(seed, new attribute, new used set)`;
`none` means `_make_seed` spins forever. -/
def marshall_seed (ticks : List Int) (attr : Option Int) (used : List Int) :
    Option (Int × Option Int × List Int) :=
  match attr with
  | none =>
    match make_seed ticks used with
    | some seed => some (seed, some seed, used ++ [seed])
    | none => none
  | some seed => some (seed, some seed, used)

/-- one node of the circular queue: the Python list
`[prev, next, key, result]` with `_PREV, _NEXT, _KEY, _RESULT = 0, 1, 2, 3`.
`prev`/`next` are heap ids; the root node and freshly cleared nodes carry
`none` in `key`/`result` (Python `None`). -/
structure Node (K V : Type) where
  prev : Nat
  next : Nat
  key : Option K
  result : Option V
deriving DecidableEq, Repr

/-- reads a node from the heap by id (Python: dereferencing an object
reference, which cannot dangle). -/
def heapGet {K V : Type} : List (Nat × Node K V) → Nat → Node K V
  | [], _ => ⟨0, 0, none, none⟩
  | p :: t, i => if p.1 = i then p.2 else heapGet t i

/-- writes one field of the node with id `i` (Python: a single
`node[_FIELD] = value` assignment on the shared mutable object). -/
def heapModify {K V : Type} : List (Nat × Node K V) → Nat → (Node K V → Node K V) →
    List (Nat × Node K V)
  | [], _, _ => []
  | p :: t, i, f => if p.1 = i then (p.1, f p.2) :: heapModify t i f else p :: heapModify t i f

/-- whether the heap has a node with id `i`. -/
def hasId {K V : Type} (nodes : List (Nat × Node K V)) (i : Nat) : Bool :=
  nodes.any (fun p => p.1 = i)

/-- `cache.get(key)`: `none` when the key is absent, `some v` when the
dict maps `key` to `v` (`v = none` models the dict value `None`,
`v = some i` a reference to node `i`). -/
def cacheGet {K : Type} [DecidableEq K] : List (K × Option Nat) → K → Option (Option Nat)
  | [], _ => none
  | p :: t, k => if p.1 = k then some p.2 else cacheGet t k

/-- `cache[key] = v`: replace in place when present (a Python dict keeps
the original position), append otherwise. -/
def cacheSet {K : Type} [DecidableEq K] : List (K × Option Nat) → K → Option Nat →
    List (K × Option Nat)
  | [], k, v => [(k, v)]
  | p :: t, k, v => if p.1 = k then (k, v) :: t else p :: cacheSet t k v

/-- `del cache[key]`: `none` models the `KeyError` raised when the key is
absent. -/
def cacheDel {K : Type} [DecidableEq K] : List (K × Option Nat) → K →
    Option (List (K × Option Nat))
  | [], _ => none
  | p :: t, k => if p.1 = k then some t else (cacheDel t k).map (fun t1 => p :: t1)

/-- `del cache[oldkey]` where `oldkey = root[_KEY]` may be Python `None`:
`None` is never a key of `cache` (all keys come from `make_key`), so it
raises `KeyError` as well. -/
def cacheDelOpt {K : Type} [DecidableEq K] (c : List (K × Option Nat)) :
    Option K → Option (List (K × Option Nat))
  | none => none
  | some k => cacheDel c k

/-- the closed-over mutable state of `_lru_cachemthod_wrapper`:
`misses`, `hits`, `full`, the dict `cache`, the node heap with the id of
the current `root`, and a fresh-id counter for newly allocated nodes.
`maxsize` is the decoration-time bound (a plain Python `int`). -/
structure LRU (K V : Type) where
  misses : Nat
  hits : Nat
  maxsize : Int
  full : Bool
  nodes : List (Nat × Node K V)
  root : Nat
  cache : List (K × Option Nat)
  nextId : Nat
deriving DecidableEq, Repr

/-- the state set up by `_lru_cachemthod_wrapper` before any call:
zero counters, `full = False`, empty dict, and
`root[:] = [root, root, None, None]` — one node pointing at itself. -/
def initLRU {K V : Type} (maxsize : Int) : LRU K V :=
  ⟨0, 0, maxsize, false, [(0, ⟨0, 0, none, none⟩)], 0, [], 1⟩

/-- Python exceptions that can escape `cache_wrapper`. -/
inductive PyErr (E : Type) where
  | keyError
  | hashError
  | funcError (e : E)
deriving DecidableEq, Repr

/-- decidable equality for `Except`, needed to evaluate concrete call
outcomes. -/
instance {ε α : Type} [DecidableEq ε] [DecidableEq α] : DecidableEq (Except ε α) := fun x y =>
  match x, y with
  | Except.error a, Except.error b =>
    if h : a = b then isTrue (by rw [h]) else isFalse (fun hc => by cases hc; exact h rfl)
  | Except.ok a, Except.ok b =>
    if h : a = b then isTrue (by rw [h]) else isFalse (fun hc => by cases hc; exact h rfl)
  | Except.error _, Except.ok _ => isFalse (fun hc => by cases hc)
  | Except.ok _, Except.error _ => isFalse (fun hc => by cases hc)

/-- the first locked section of `cache_wrapper` (the `get`): look the key
up; on a hit unlink the node, relink it in front of `root` (most recently
used), bump `hits` and return the node's stored result; otherwise bump
`misses` and fall through (`none`). -/
def getSection {K V : Type} [DecidableEq K] (key : K) (st : LRU K V) :
    Option (Option V) × LRU K V :=
  match cacheGet st.cache key with
  | some (some nid) =>
    let node := heapGet st.nodes nid
    let prev := node.prev
    let next_ := node.next
    let result := node.result
    let ns1 := heapModify st.nodes prev (fun n => { n with next := next_ })
    let ns2 := heapModify ns1 next_ (fun n => { n with prev := prev })
    let last := (heapGet ns2 st.root).prev
    let ns3 := heapModify ns2 last (fun n => { n with next := nid })
    let ns4 := heapModify ns3 st.root (fun n => { n with prev := nid })
    let ns5 := heapModify ns4 nid (fun n => { n with prev := last })
    let ns6 := heapModify ns5 nid (fun n => { n with next := st.root })
    (some result, { st with nodes := ns6, hits := st.hits + 1 })
  | _ => (none, { st with misses := st.misses + 1 })

/-- the second locked section of `cache_wrapper` plus the trailing
`cache[key] = node` (which the source places after the `with lock`
block).  The local variable `node` is still `None` from the miss path
when the `if key in cache` branch runs, so that branch ends by storing
`None` over the existing entry.  In the `elif full` branch the old root
is reused for the new entry, the next node becomes the new root and is
stripped of its key/result, and the evicted key is removed from the
dict (`del cache[oldkey]`, a `KeyError` when absent — the state mutated
so far is kept, as in Python, and the trailing assignment is skipped).
Otherwise a fresh node is linked in before `root` and
`full = len(cache) >= maxsize` is recomputed. -/
def putSection {K V E : Type} [DecidableEq K] (key : K) (v : V) (st : LRU K V) :
    Except (PyErr E) Unit × LRU K V :=
  match cacheGet st.cache key with
  | some _ =>
    (Except.ok (), { st with cache := cacheSet st.cache key none })
  | none =>
    if st.full then
      let nid := st.root
      let ns1 := heapModify st.nodes nid (fun n => { n with key := some key })
      let ns2 := heapModify ns1 nid (fun n => { n with result := some v })
      let newRoot := (heapGet ns2 nid).next
      let oldkey := (heapGet ns2 newRoot).key
      let ns3 := heapModify ns2 newRoot (fun n => { n with key := none })
      let ns4 := heapModify ns3 newRoot (fun n => { n with result := none })
      match cacheDelOpt st.cache oldkey with
      | none => (Except.error PyErr.keyError, { st with nodes := ns4, root := newRoot })
      | some c1 =>
        (Except.ok (),
          { st with nodes := ns4, root := newRoot, cache := cacheSet c1 key (some nid) })
    else
      let last := (heapGet st.nodes st.root).prev
      let nid := st.nextId
      let ns1 := st.nodes ++ [(nid, ⟨last, st.root, some key, some v⟩)]
      let ns2 := heapModify ns1 last (fun n => { n with next := nid })
      let ns3 := heapModify ns2 st.root (fun n => { n with prev := nid })
      let c1 := cacheSet st.cache key (some nid)
      let full1 := decide (st.maxsize ≤ (c1.length : Int))
      (Except.ok (),
        { st with nodes := ns3, cache := cacheSet c1 key (some nid), full := full1,
                  nextId := nid + 1 })

/-- one call of `cache_wrapper` after the key has been built: the `get`
section, then — on a miss — `result = func(...)` outside the lock
(`fres` is its outcome) and the `put` section.  The call's value is the
Python return value (`Option V` because a hit returns whatever object
the node stores). -/
def lruCall {K V E : Type} [DecidableEq K] (key : K) (fres : Except E V) (st : LRU K V) :
    Except (PyErr E) (Option V) × LRU K V :=
  match getSection key st with
  | (some r, st1) => (Except.ok r, st1)
  | (none, st1) =>
    match fres with
    | Except.error e => (Except.error (PyErr.funcError e), st1)
    | Except.ok v =>
      match putSection key v st1 with
      | (Except.ok (), st2) => (Except.ok (some v), st2)
      | (Except.error err, st2) => (Except.error err, st2)

/-- mirrors `cache_clear()`: `cache.clear()` and zeroed counters.  The
circular queue rooted at `root` and the `full` flag are left as they
are — the source touches neither. -/
def cache_clear {K V : Type} (st : LRU K V) : LRU K V :=
  { st with cache := [], misses := 0, hits := 0 }

/-- the `CacheInfo` namedtuple `(misses, hits, maxsize, full)`. -/
structure CacheInfo where
  misses : Nat
  hits : Nat
  maxsize : Int
  full : Bool
deriving DecidableEq, Repr

/-- mirrors `cache_info()`. -/
def cache_info {K V : Type} (st : LRU K V) : CacheInfo :=
  ⟨st.misses, st.hits, st.maxsize, st.full⟩

/-- outcome of a full wrapped call under the seed strategy: a returned
value, a propagated exception, or `_make_seed` spinning forever. -/
inductive SeedOutcome (E V : Type) where
  | ret (r : Option V)
  | exc (e : PyErr E)
  | spin
deriving DecidableEq, Repr

/-- per-call hashing where any argument may be unhashable:
`hash(args) + sum(map(hash, kwargs.items()))` with `none` standing for a
raised `TypeError`.  `hargs` is the outcome of `hash(args)`, `hkw` the
outcomes of hashing each keyword item. -/
def hash_args_kwargs_opt (hargs : Option Int) (hkw : List (Option Int)) : Option Int :=
  match hargs, hkw.mapM id with
  | some h, some l => some (h + l.sum)
  | _, _ => none

/-- one full call of `cache_wrapper` under the seed strategy
(`lru_cachemethod`): `_marshall_seed` first (which may generate and
record a seed), then key construction (which may raise on unhashable
arguments), then the LRU sections.  Returns the outcome together with
the instance attribute, the cache's used-seeds set and the LRU state
after the call. -/
def cache_wrapper_seed {V E : Type} (ticks : List Int) (attr : Option Int)
    (hargs : Option Int) (hkw : List (Option Int)) (fres : Except E V)
    (used : List Int) (st : LRU Int V) :
    SeedOutcome E V × Option Int × List Int × LRU Int V :=
  match marshall_seed ticks attr used with
  | none => (SeedOutcome.spin, attr, used, st)
  | some (seed, attr1, used1) =>
    match hash_args_kwargs_opt hargs hkw with
    | none => (SeedOutcome.exc PyErr.hashError, attr1, used1, st)
    | some h =>
      match lruCall (seed + h) fres st with
      | (Except.ok r, st1) => (SeedOutcome.ret r, attr1, used1, st1)
      | (Except.error e, st1) => (SeedOutcome.exc e, attr1, used1, st1)

/-- keys of the recency ordering, read off the circular queue from the
oldest node (`root[_NEXT]`) to the newest (`root[_PREV]`); fuelled by
the heap size, which bounds the ring length. -/
def ringKeysAux {K V : Type} (nodes : List (Nat × Node K V)) (rootId : Nat) :
    Nat → Nat → List K
  | 0, _ => []
  | fuel + 1, i =>
    if i = rootId then []
    else
      match (heapGet nodes i).key with
      | some k => k :: ringKeysAux nodes rootId fuel (heapGet nodes i).next
      | none => ringKeysAux nodes rootId fuel (heapGet nodes i).next

/-- keys currently held by the recency ordering of `st`. -/
def orderKeys {K V : Type} (st : LRU K V) : List K :=
  ringKeysAux st.nodes st.root (st.nodes.length + 1) ((heapGet st.nodes st.root).next)

/-- repeated first-call seed issuance by one cache: each element of
`tickss` is the clock readings one `_marshall_seed` call (on an
instance without the attribute) gets to see; the used-seeds set is
threaded through exactly as the closure in `_base_seed` does.  A spin
ends the trace. -/
def issueSeeds : List (List Int) → List Int → List Int
  | [], _ => []
  | ts :: rest, used =>
    match marshall_seed ts none used with
    | some (s, _, used1) => s :: issueSeeds rest used1
    | none => []

/-- the keys of the dict, in dict order. -/
def cacheKeys {K V : Type} (st : LRU K V) : List K :=
  st.cache.map (fun p => p.1)

/-- one call of the wrapped method for the concrete `maxsize = 2`
scenario: a single instance, clock reading 100 available, positional
arguments hashing to `h`, no keyword arguments, underlying method
returning `v`. -/
def scenarioStep (h v : Int) (s : Option Int × List Int × LRU Int Int) :
    SeedOutcome Unit Int × Option Int × List Int × LRU Int Int :=
  cache_wrapper_seed [100] s.1 (some h) [] (Except.ok v) s.2.1 s.2.2

/-- the canonical state of a `maxsize = 0` cache holding exactly one
entry `(k, v)`; the two heap nodes swap the root role on every
eviction, `b` says which of the two shapes the state is in, `m` is the
miss count. -/
def singleShape (b : Bool) (k v : Int) (m : Nat) : LRU Int Int :=
  if b then
    { misses := m, hits := 0, maxsize := 0, full := true,
      nodes := [(0, ⟨1, 1, none, none⟩), (1, ⟨0, 0, some k, some v⟩)], root := 0,
      cache := [(k, some 1)], nextId := 2 }
  else
    { misses := m, hits := 0, maxsize := 0, full := true,
      nodes := [(0, ⟨1, 1, some k, some v⟩), (1, ⟨0, 0, none, none⟩)], root := 1,
      cache := [(k, some 0)], nextId := 2 }

/-- folds a sequence of distinct-argument calls (key `k`, underlying
result `k`) over the store. -/
def runKeys (ks : List Int) (st : LRU Int Int) : LRU Int Int :=
  ks.foldl (fun s k => (lruCall (E := Unit) k (Except.ok k) s).2) st

/-- the `maxsize = 2` scenario, call by call: `f(1)`, `f(2)`, `f(1)`,
`f(3)`, `f(2)`, with underlying results 11, 12, 13, 14, 15 (so a hit is
visible as the older value coming back).  With seed 100 the cache keys
of the five calls are 101, 102, 101, 103, 102. -/
def c2s0 : Option Int × List Int × LRU Int Int := (none, [], initLRU 2)

/-- state and outcome after `f(1)` (miss). -/
def c2r1 : SeedOutcome Unit Int × Option Int × List Int × LRU Int Int :=
  scenarioStep 1 11 c2s0

/-- state and outcome after `f(2)` (miss). -/
def c2r2 : SeedOutcome Unit Int × Option Int × List Int × LRU Int Int :=
  scenarioStep 2 12 c2r1.2

/-- state and outcome after the second `f(1)` (hit). -/
def c2r3 : SeedOutcome Unit Int × Option Int × List Int × LRU Int Int :=
  scenarioStep 1 13 c2r2.2

/-- state and outcome after `f(3)` (miss, evicting the key of `f(2)`). -/
def c2r4 : SeedOutcome Unit Int × Option Int × List Int × LRU Int Int :=
  scenarioStep 3 14 c2r3.2

/-- state and outcome after the second `f(2)` (miss again). -/
def c2r5 : SeedOutcome Unit Int × Option Int × List Int × LRU Int Int :=
  scenarioStep 2 15 c2r4.2

/-- a store holding key 5 with result 10: the state in which the
insertion section can run for key 5 again, which happens when two
concurrent misses for key 5 raced past the `get` before either ran the
`put` (the slower thread then executes `putSection` on exactly this
state). -/
def raceState : LRU Int Int :=
  (lruCall (E := Unit) 5 (Except.ok 10) (initLRU 128)).2

/-- the race put itself: the insertion section for key 5 (freshly
computed result 99) running while key 5 is already cached. -/
def racePut : Except (PyErr Unit) Unit × LRU Int Int :=
  putSection 5 (99 : Int) raceState

/-- a `maxsize = 1` cache after one call `f(4)` (store full) followed by
`cache_clear()`. -/
def c3Cleared : LRU Int Int :=
  cache_clear (lruCall (E := Unit) 4 (Except.ok 8) (initLRU 1)).2

/-- a `maxsize = 128` cache after one call with key 7. -/
def c6After : LRU Int Int :=
  (lruCall (E := Unit) 7 (Except.ok 1) (initLRU 128)).2

/-- a `maxsize = 2` cache holding key 5 in node 1 — a concrete state on
which a hit can be observed to move the entry to the most-recently-used
position. -/
def c2wState : LRU Int Int :=
  (lruCall (E := Unit) 5 (Except.ok 10) (initLRU 2)).2

/-! Helper lemmas about the heap. -/

/-- modifying node `i` leaves every other node unchanged. -/
theorem heapGet_heapModify_ne {K V : Type} (ns : List (Nat × Node K V)) (i j : Nat)
    (f : Node K V → Node K V) (h : j ≠ i) :
    heapGet (heapModify ns i f) j = heapGet ns j := by
  induction ns with
  | nil => rfl
  | cons p t ih =>
    by_cases hp : p.1 = i <;> by_cases hq : p.1 = j
    · exact absurd (hq.symm.trans hp) h
    · simp [heapModify, heapGet, hp, hq, Ne.symm h, ih]
    · simp [heapModify, heapGet, hp, hq, h, ih]
    · simp [heapModify, heapGet, hp, hq, ih]

/-- modifying node `i` rewrites exactly that node, provided it exists. -/
theorem heapGet_heapModify_self {K V : Type} (ns : List (Nat × Node K V)) (i : Nat)
    (f : Node K V → Node K V) (h : hasId ns i = true) :
    heapGet (heapModify ns i f) i = f (heapGet ns i) := by
  induction ns with
  | nil => simp [hasId] at h
  | cons p t ih =>
    by_cases hp : p.1 = i
    · simp [heapModify, heapGet, hp]
    · have ht : hasId t i = true := by
        simp [hasId] at h ⊢
        rcases h with h | h
        · exact absurd h hp
        · exact h
      simp [heapModify, heapGet, hp, ih ht]

/-- modifying a node changes no node's existence. -/
theorem hasId_heapModify {K V : Type} (ns : List (Nat × Node K V)) (i j : Nat)
    (f : Node K V → Node K V) :
    hasId (heapModify ns i f) j = hasId ns j := by
  induction ns with
  | nil => rfl
  | cons p t ih =>
    simp [hasId] at ih
    by_cases hp : p.1 = i
    · simp [heapModify, hasId, hp, ih]
    · simp [heapModify, hasId, hp, ih]

/-! Claim C1: the insertion section running on an already-present key. -/

/-- C1: the claim says that when the insertion section runs while the key
is already cached (two misses raced past `get`), the existing entry wins:
no update, no error, no re-ordering.  The code disagrees: the `pass`
branch is followed by the trailing `cache[key] = node` with `node` still
`None`, so the map entry for the key is overwritten with `None`.  No
error is raised and the ring is untouched, but the existing entry is
discarded: a lookup of key 5 was a hit returning the cached 10 before the
race put, and afterwards it misses and recomputes (77). -/
theorem c1_race_put_overwrites_entry_with_none :
    raceState.cache = [(5, some 1)] ∧
    racePut.1 = Except.ok () ∧
    racePut.2.nodes = raceState.nodes ∧
    racePut.2.cache = [(5, none)] ∧
    (lruCall (E := Unit) 5 (Except.ok 77) raceState).1 = Except.ok (some 10) ∧
    (lruCall (E := Unit) 5 (Except.ok 77) racePut.2).1 = Except.ok (some 77) := by
  decide

/-! Claim C3: `cache_clear`. -/

/-- C3: `cache_clear()` does reset the counters and empty the map, and a
previously cached key misses again — but it leaves the recency ordering
(the ring still holds key 4) and the `full` flag untouched, so subsequent
calls do not behave as on a fresh cache: on a full `maxsize = 1` cache, a
fresh cache answers `f(6)` with the computed 9, while after
`cache_clear()` the same call raises `KeyError` (the eviction path
deletes the stale ring key from the now-empty dict). -/
theorem c3_clear_keeps_ring_and_full_flag :
    c3Cleared.misses = 0 ∧
    c3Cleared.hits = 0 ∧
    c3Cleared.cache = [] ∧
    orderKeys c3Cleared = [4] ∧
    c3Cleared.full = true ∧
    (lruCall (E := Unit) 6 (Except.ok 9) (initLRU 1)).1 = Except.ok (some 9) ∧
    (lruCall (E := Unit) 6 (Except.ok 9) c3Cleared).1 = Except.error PyErr.keyError := by
  decide

/-! Claim C6: the map/ordering correspondence. -/

/-- C6: the correspondence between the map and the recency ordering holds
after a wrapped call (both hold exactly key 7), but `cache_clear` mutates
the map alone: afterwards the ordering still holds key 7 while the map is
empty, so the claimed invariant is broken at a state between public
operations. -/
theorem c6_clear_breaks_map_ordering_correspondence :
    orderKeys c6After = [7] ∧
    cacheKeys c6After = [7] ∧
    orderKeys (cache_clear c6After) = [7] ∧
    cacheKeys (cache_clear c6After) = [] := by
  decide

/-! Claim C4: the `maxsize = 0` sentinel. -/

/-- C4 counterexample: with `maxsize = 0` the store is not unbounded and
`full` does not stay false: `full` is already true after the first
distinct-argument call, and the second call evicts the first key (the
claim says no entry is ever evicted and `full` stays false throughout). -/
theorem c4_counterexample_maxsize_zero_not_unbounded :
    (runKeys [1] (initLRU 0)).full = true ∧
    cacheKeys (runKeys [1, 2] (initLRU 0)) = [2] := by
  decide

/-! Claim C5: keyword order and the cache key. -/

/-- C5 counterexample: no pair of calls passing the same keyword items in
different orders can produce different keys — `_hash_args_kwargs` adds up
the per-item hashes, and sums are invariant under permutation, whatever
the hash function is.  This proves the negation of the claim. -/
theorem c5_counterexample_no_order_sensitive_pair :
    ¬ ∃ (h : Int → Int) (ha : Int) (l l1 : List Int),
        l.Perm l1 ∧ hash_args_kwargs h ha l ≠ hash_args_kwargs h ha l1 := by
  rintro ⟨h, ha, l, l1, hp, hne⟩
  exact hne (by simp [hash_args_kwargs, List.Perm.sum_eq (hp.map h)])

/-- C5 amended: keyword-argument order does not affect the cache key:
the key builder sums the hash of each `(name, value)` keyword pair, so
any two calls passing the same pairs in different orders build the same
key. -/
theorem c5_amended_kwarg_order_irrelevant {α : Type} (hash : α → Int) (hargs : Int)
    (l l1 : List α) (hp : l.Perm l1) :
    hash_args_kwargs hash hargs l = hash_args_kwargs hash hargs l1 := by
  simp [hash_args_kwargs, List.Perm.sum_eq (hp.map hash)]

/-- C5 witness: the two keyword orders `[1, 2]` and `[2, 1]` yield equal
keys. -/
theorem c5_amended_witness :
    hash_args_kwargs id 7 [1, 2] = hash_args_kwargs id 7 [2, 1] :=
  c5_amended_kwarg_order_irrelevant id 7 [1, 2] [2, 1] (List.Perm.swap 2 1 [])

/-! Claim C8: an exception raised by the wrapped method on a miss. -/

/-- C8: when the key misses (absent, or present with the `None` dict
value) and the wrapped method raises, the exception propagates with its
payload unchanged and the only state change is `misses += 1`: the map
(hence its key set), the ring, the hit counter and the `full` flag are
exactly as before. -/
theorem c8_func_exception_only_bumps_misses {K V E : Type} [DecidableEq K]
    (st : LRU K V) (k : K) (e : E)
    (h : cacheGet st.cache k = none ∨ cacheGet st.cache k = some none) :
    lruCall k (Except.error e) st =
      (Except.error (PyErr.funcError e), { st with misses := st.misses + 1 }) := by
  rcases h with h | h <;> simp [lruCall, getSection, h]

/-- C8 witness: a failing first call on a fresh cache. -/
theorem c8_func_exception_witness :
    lruCall (V := Int) 3 (Except.error ()) (initLRU 128) =
      (Except.error (PyErr.funcError ()),
        { (initLRU 128 : LRU Int Int) with misses := (initLRU 128 : LRU Int Int).misses + 1 }) :=
  c8_func_exception_only_bumps_misses (initLRU 128) 3 () (Or.inl rfl)

/-! Claim C9: unhashable arguments. -/

/-- C9 counterexample: a first call from a fresh instance with
unhashable arguments.  The hashing failure does propagate and the store
is untouched, but the identity-strategy state is not "exactly as before
the call": `_marshall_seed` runs before the key is built, so the seed 100
has been generated, added to the used-seeds set (now `[100]`, was `[]`)
and stored on the instance (now `some 100`, was absent). -/
theorem c9_counterexample_seed_state_mutated :
    cache_wrapper_seed (V := Int) (E := Unit) [100] none none [] (Except.ok 0) [] (initLRU 128) =
      (SeedOutcome.exc PyErr.hashError, some 100, [100], initLRU 128) ∧
    (some 100 : Option Int) ≠ none ∧
    ([100] : List Int) ≠ [] := by
  decide

/-- C9 amended: when key construction fails on unhashable arguments the
failure propagates immediately and no LRU store state (map, recency
ordering, counters, `full` flag) is mutated; the identity-strategy state,
however, is mutated first when the instance had no seed yet: the fresh
seed is recorded in the used-seeds set and on the instance before hashing
runs.  An instance already carrying a seed is left unchanged. -/
theorem c9_amended_hash_failure_after_marshalling {V E : Type} (ticks : List Int)
    (attr : Option Int) (ha : Option Int) (hkw : List (Option Int)) (fr : Except E V)
    (used : List Int) (st : LRU Int V)
    (h : hash_args_kwargs_opt ha hkw = none) :
    (cache_wrapper_seed ticks attr ha hkw fr used st).2.2.2 = st ∧
    (∀ s : Int, attr = some s →
      cache_wrapper_seed ticks attr ha hkw fr used st =
        (SeedOutcome.exc PyErr.hashError, some s, used, st)) ∧
    (∀ s : Int, attr = none → make_seed ticks used = some s →
      cache_wrapper_seed ticks attr ha hkw fr used st =
        (SeedOutcome.exc PyErr.hashError, some s, used ++ [s], st)) := by
  refine ⟨?_, ?_, ?_⟩
  · cases attr with
    | some s => simp [cache_wrapper_seed, marshall_seed, h]
    | none =>
      cases hm : make_seed ticks used with
      | none => simp [cache_wrapper_seed, marshall_seed, hm]
      | some s => simp [cache_wrapper_seed, marshall_seed, hm, h]
  · rintro s rfl
    simp [cache_wrapper_seed, marshall_seed, h]
  · rintro s rfl hm
    simp [cache_wrapper_seed, marshall_seed, hm, h]

/-- C9 witness: the amended statement evaluated on the counterexample
call. -/
theorem c9_amended_witness :
    (cache_wrapper_seed (V := Int) (E := Unit) [100] none none [] (Except.ok 0) []
        (initLRU 128)).2.2.2 = initLRU 128 ∧
    (∀ s : Int, (none : Option Int) = some s →
      cache_wrapper_seed (V := Int) (E := Unit) [100] none none [] (Except.ok 0) []
          (initLRU 128) =
        (SeedOutcome.exc PyErr.hashError, some s, [], initLRU 128)) ∧
    (∀ s : Int, (none : Option Int) = none → make_seed [100] [] = some s →
      cache_wrapper_seed (V := Int) (E := Unit) [100] none none [] (Except.ok 0) []
          (initLRU 128) =
        (SeedOutcome.exc PyErr.hashError, some s, [] ++ [s], initLRU 128)) :=
  c9_amended_hash_failure_after_marshalling [100] none none [] (Except.ok 0) []
    (initLRU 128) rfl

/-! Claim C10: an instance that already carries `__cache_seed__`. -/

/-- C10: if the first cache issues seed `s` to an instance (storing it in
the `__cache_seed__` attribute), then a call through a second,
independently decorated cache returns that stored `s` as the seed without
generating a new one: the second cache's used-seeds set is returned
unchanged, so `s` stays absent from it when it was absent before. -/
theorem c10_stored_seed_reused_without_issuance (t1 t2 u1 u2 : List Int) (s : Int)
    (a : Option Int) (u : List Int)
    (h1 : marshall_seed t1 none u1 = some (s, a, u)) (h2 : s ∉ u2) :
    a = some s ∧
    marshall_seed t2 (some s) u2 = some (s, some s, u2) ∧
    s ∉ u2 := by
  refine ⟨?_, rfl, h2⟩
  cases hm : make_seed t1 u1 with
  | none => simp [marshall_seed, hm] at h1
  | some s0 =>
    simp [marshall_seed, hm] at h1
    rw [← h1.1]
    exact h1.2.1.symm

/-- C10 witness: cache 1 issues seed 5 to the instance; cache 2 (used set
`[10]`) reuses it without recording it. -/
theorem c10_stored_seed_witness :
    (some 5 : Option Int) = some 5 ∧
    marshall_seed [99] (some 5) [10] = some (5, some 5, [10]) ∧
    (5 : Int) ∉ ([10] : List Int) :=
  c10_stored_seed_reused_without_issuance [5] [99] [] [10] 5 (some 5) [5] (by decide)
    (by decide)

/-! Claim C7: distinct identity tokens, distinct keys; seed uniqueness. -/

/-- a seed returned by `_make_seed` is never in the used set it was given
(the loop retries while the clock reading collides). -/
theorem make_seed_not_mem (ticks used : List Int) (s : Int)
    (h : make_seed ticks used = some s) : s ∉ used := by
  have hp := List.find?_some h
  simpa using hp

/-- the seeds a cache issues through repeated first-call `_marshall_seed`
runs are pairwise distinct and disjoint from the initial used set: every
issued seed is recorded in `used_seeds_set` before the next issuance. -/
theorem issueSeeds_spec (tickss : List (List Int)) : ∀ used : List Int,
    (issueSeeds tickss used).Nodup ∧ ∀ s ∈ issueSeeds tickss used, s ∉ used := by
  induction tickss with
  | nil => intro used; simp [issueSeeds]
  | cons ts rest ih =>
    intro used
    cases hm : make_seed ts used with
    | none => simp [issueSeeds, marshall_seed, hm]
    | some s =>
      have hs : s ∉ used := make_seed_not_mem ts used s hm
      obtain ⟨h1, h2⟩ := ih (used ++ [s])
      have hiss : issueSeeds (ts :: rest) used = s :: issueSeeds rest (used ++ [s]) := by
        simp [issueSeeds, marshall_seed, hm]
      rw [hiss]
      constructor
      · rw [List.nodup_cons]
        refine ⟨fun hmem => ?_, h1⟩
        have := h2 s hmem
        simp at this
      · intro x hx
        rcases List.mem_cons.mp hx with rfl | hx
        · exact hs
        · intro hxu
          exact h2 x hx (List.mem_append_left _ hxu)

/-- C7: distinct identity tokens never collide on identical arguments —
under the seed strategy two distinct seeds give distinct keys, under the
weakref strategy two distinct weak handles give distinct (tuple) keys —
and every trace of seeds issued by one cache is pairwise distinct. -/
theorem c7_distinct_tokens_distinct_keys {α : Type} (hash : α → Int)
    (s1 s2 hargs : Int) (kw : List α) (w1 w2 : Nat) (tickss : List (List Int))
    (hs : s1 ≠ s2) (hw : w1 ≠ w2) :
    make_cache_key_seed hash s1 hargs kw ≠ make_cache_key_seed hash s2 hargs kw ∧
    make_cache_key_weakref hash w1 hargs kw ≠ make_cache_key_weakref hash w2 hargs kw ∧
    (issueSeeds tickss []).Nodup := by
  refine ⟨?_, ?_, (issueSeeds_spec tickss []).1⟩
  · intro he
    simp [make_cache_key_seed] at he
    exact hs he
  · intro he
    simp [make_cache_key_weakref] at he
    exact hw he

/-- C7 witness: seeds 1 ≠ 2 and instances 0 ≠ 1 on the same arguments,
with a two-issuance trace. -/
theorem c7_distinct_tokens_witness :
    make_cache_key_seed id 1 4 [9] ≠ make_cache_key_seed id 2 4 [9] ∧
    make_cache_key_weakref id 0 4 [9] ≠ make_cache_key_weakref id 1 4 [9] ∧
    (issueSeeds [[3], [3, 8]] []).Nodup :=
  c7_distinct_tokens_distinct_keys id 1 2 4 [9] 0 1 [[3], [3, 8]] (by decide) (by decide)

/-! Claim C2: eviction is least-recently-accessed. -/

/-- C2: a hit moves the entry to the most-recently-used position — for
any store state whose dict maps `k` to a (non-root) node `nid`, the hit
leaves the root in place, bumps `hits`, keeps the dict, and relinks the
ring so that `root[_PREV]` (the newest slot, the last to be evicted) is
that node.  In particular, the `maxsize = 2` seed-strategy scenario on a
single instance behaves as claimed: `f(1)` miss, `f(2)` miss, `f(1)` hit
(returning the cached 11), `f(3)` miss evicting the key of `f(2)` (the
store then holds exactly the keys 101 and 103 of arguments 1 and 3), and
`f(2)` misses again. -/
theorem c2_hit_moves_entry_to_mru (st : LRU Int Int) (k : Int) (nid : Nat)
    (h1 : cacheGet st.cache k = some (some nid)) (h2 : nid ≠ st.root)
    (h3 : hasId st.nodes st.root = true) :
    ((getSection k st).2.root = st.root ∧
     (heapGet (getSection k st).2.nodes st.root).prev = nid ∧
     (getSection k st).2.hits = st.hits + 1 ∧
     (getSection k st).2.cache = st.cache) ∧
    (c2r1.1 = SeedOutcome.ret (some 11) ∧ c2r1.2.2.2.misses = 1 ∧ c2r1.2.2.2.hits = 0) ∧
    (c2r2.1 = SeedOutcome.ret (some 12) ∧ c2r2.2.2.2.misses = 2 ∧ c2r2.2.2.2.hits = 0) ∧
    (c2r3.1 = SeedOutcome.ret (some 11) ∧ c2r3.2.2.2.misses = 2 ∧ c2r3.2.2.2.hits = 1) ∧
    (c2r4.1 = SeedOutcome.ret (some 14) ∧ c2r4.2.2.2.misses = 3 ∧ c2r4.2.2.2.hits = 1 ∧
      cacheKeys c2r4.2.2.2 = [101, 103]) ∧
    (c2r5.1 = SeedOutcome.ret (some 15) ∧ c2r5.2.2.2.misses = 4 ∧ c2r5.2.2.2.hits = 1) := by
  constructor
  · have hroot : st.root ≠ nid := Ne.symm h2
    simp only [getSection, h1]
    refine ⟨trivial, ?_, trivial, trivial⟩
    rw [heapGet_heapModify_ne _ _ _ _ hroot, heapGet_heapModify_ne _ _ _ _ hroot,
        heapGet_heapModify_self]
    rw [hasId_heapModify, hasId_heapModify, hasId_heapModify]
    exact h3
  · exact ⟨by decide, by decide, by decide, by decide, by decide⟩

/-- C2 witness: the hit on key 5 in `c2wState` (node 1, root 0) lands at
the most-recently-used position, alongside the concrete scenario. -/
theorem c2_hit_moves_entry_witness :
    (((getSection 5 c2wState).2.root = c2wState.root ∧
      (heapGet (getSection 5 c2wState).2.nodes c2wState.root).prev = 1 ∧
      (getSection 5 c2wState).2.hits = c2wState.hits + 1 ∧
      (getSection 5 c2wState).2.cache = c2wState.cache) ∧
     (c2r1.1 = SeedOutcome.ret (some 11) ∧ c2r1.2.2.2.misses = 1 ∧ c2r1.2.2.2.hits = 0) ∧
     (c2r2.1 = SeedOutcome.ret (some 12) ∧ c2r2.2.2.2.misses = 2 ∧ c2r2.2.2.2.hits = 0) ∧
     (c2r3.1 = SeedOutcome.ret (some 11) ∧ c2r3.2.2.2.misses = 2 ∧ c2r3.2.2.2.hits = 1) ∧
     (c2r4.1 = SeedOutcome.ret (some 14) ∧ c2r4.2.2.2.misses = 3 ∧ c2r4.2.2.2.hits = 1 ∧
       cacheKeys c2r4.2.2.2 = [101, 103]) ∧
     (c2r5.1 = SeedOutcome.ret (some 15) ∧ c2r5.2.2.2.misses = 4 ∧ c2r5.2.2.2.hits = 1)) :=
  c2_hit_moves_entry_to_mru c2wState 5 1 (by decide) (by decide) (by decide)

/-- first distinct-argument call on a fresh `maxsize = 0` store: one
miss, and the store already reports full (`len(cache) >= 0`). -/
theorem lruCall_initLRU_zero (k v : Int) :
    lruCall (E := Unit) k (Except.ok v) (initLRU 0) =
      (Except.ok (some v), singleShape true k v 1) := by
  simp [lruCall, getSection, putSection, initLRU, cacheGet, cacheSet, heapGet, heapModify,
        singleShape]

/-- a distinct-argument call on a one-entry `maxsize = 0` store takes the
eviction path: the held key is evicted and the new one stored, the two
ring nodes swapping roles. -/
theorem lruCall_singleShape (b : Bool) (k v k1 v1 : Int) (m : Nat) (h : k1 ≠ k) :
    lruCall (E := Unit) k1 (Except.ok v1) (singleShape b k v m) =
      (Except.ok (some v1), singleShape (!b) k1 v1 (m + 1)) := by
  have hk : k ≠ k1 := Ne.symm h
  cases b <;>
    simp [lruCall, getSection, putSection, singleShape, cacheGet, cacheSet, cacheDel,
          cacheDelOpt, heapGet, heapModify, hk]

/-- running further pairwise-fresh keys over a one-entry `maxsize = 0`
store keeps the one-entry shape, adding one miss per call. -/
theorem runKeys_singleShape (ks : List Int) : ∀ (b : Bool) (k v : Int) (m : Nat),
    k ∉ ks → ks.Nodup →
    ∃ b1 k1 v1, runKeys ks (singleShape b k v m) = singleShape b1 k1 v1 (m + ks.length) := by
  induction ks with
  | nil =>
    intro b k v m _ _
    exact ⟨b, k, v, by simp [runKeys]⟩
  | cons x t ih =>
    intro b k v m hk hnd
    have hx : x ≠ k := fun he => hk (by rw [← he]; exact List.mem_cons_self x t)
    have hstep : runKeys (x :: t) (singleShape b k v m) =
        runKeys t (singleShape (!b) x x (m + 1)) := by
      simp only [runKeys, List.foldl_cons, lruCall_singleShape b k v x x m hx]
    rw [hstep]
    obtain ⟨b1, k1, v1, hrun⟩ :=
      ih (!b) x x (m + 1) (List.nodup_cons.mp hnd).1 (List.nodup_cons.mp hnd).2
    refine ⟨b1, k1, v1, ?_⟩
    rw [hrun]
    congr 1
    simp only [List.length_cons]
    omega

/-- C4 amended: `maxsize = 0` is not an unbounded mode.  Any nonempty
sequence of pairwise-distinct-argument calls produces one miss each and
no hit, exactly as the claim counts, but `full` is true from the first
insertion on and every insertion after the first evicts the previous
entry, so the store always holds exactly one entry. -/
theorem c4_amended_maxsize_zero_not_unbounded (ks : List Int) (h1 : ks.Nodup)
    (h2 : ks ≠ []) :
    (runKeys ks (initLRU 0)).misses = ks.length ∧
    (runKeys ks (initLRU 0)).hits = 0 ∧
    (runKeys ks (initLRU 0)).full = true ∧
    (runKeys ks (initLRU 0)).cache.length = 1 := by
  cases ks with
  | nil => exact absurd rfl h2
  | cons x t =>
    have hstep : runKeys (x :: t) (initLRU 0) = runKeys t (singleShape true x x 1) := by
      simp only [runKeys, List.foldl_cons, lruCall_initLRU_zero x x]
    rw [hstep]
    obtain ⟨b1, k1, v1, hrun⟩ :=
      runKeys_singleShape t true x x 1 (List.nodup_cons.mp h1).1 (List.nodup_cons.mp h1).2
    rw [hrun]
    cases b1 <;> simp [singleShape] <;> omega

/-- C4 amended witness: three distinct-argument calls. -/
theorem c4_amended_maxsize_zero_witness :
    (runKeys [1, 2, 3] (initLRU 0)).misses = ([1, 2, 3] : List Int).length ∧
    (runKeys [1, 2, 3] (initLRU 0)).hits = 0 ∧
    (runKeys [1, 2, 3] (initLRU 0)).full = true ∧
    (runKeys [1, 2, 3] (initLRU 0)).cache.length = 1 :=
  c4_amended_maxsize_zero_not_unbounded [1, 2, 3] (by decide) (by decide)
